import Mathlib

/-!
Verification of the `ppk` packaging pipeline (`src/ppk/libs/pack.py`,
`src/ppk/libs/tests.py`, `src/lib/utilities.py`) against its
natural-language specification.

The Python code is shallowly embedded: each method becomes a Lean
function over explicit data.  External effects are made explicit:

* the downloaded working directory is a `List String` of filenames;
* the configured test battery (`sysconfig['tests']` dispatched through
  `VTests`) is a function `String → List VTestResult` giving, per file,
  the result tuple of each configured test (first element = pass flag);
* library hash primitives (`hashlib.sha256(..).hexdigest`,
  `crypto.checksum_sha256`) are a function parameter
  `h : String → String` standing for the hex-encoded SHA-256 digest;
* a Python exception escaping a modelled function is `Except.error ()`.
-/

namespace PPK

/-- One verification-test result tuple: the leading boolean pass flag and
the trailing numeric support values (e.g. the Snyk severity counts). -/
structure VTestResult where
  flag : Bool
  support : List Nat
deriving DecidableEq

/-- The CLI argument record (`argparse.Namespace`) as consumed by
`PPKPacker`.  `platform` and `python_version` are produced by argparse as
`None` or a one-element list; the model carries the sole element. -/
structure Args where
  package : List String
  platform : Option String
  python_version : Option String
  from_req : Bool
  no_cleanup : Bool
  exclude : Option (List String)

/-- The mutable naming fields of `PPKPacker`, with the defaults assigned
in `PPKPacker.__init__`. -/
structure PackerState where
  name : String
  pkg_version : String
  py_version : String
  abi : String
  platform : String
deriving DecidableEq

/-- `PPKPacker.__init__`: every parsed-from-filename field starts as the
literal sentinel string `unset`. -/
def initState (name : String) : PackerState :=
  { name := name, pkg_version := "unset", py_version := "unset",
    abi := "unset", platform := "unset" }

/-- The character test behind `chars = {'<', '>', '='}` in
`PPKPacker._set_package_name`. -/
def isCompChar (c : Char) : Bool :=
  c == '<' || c == '>' || c == '='

/-- `re.split('[<>=]', s, maxsplit=fuel)`: split at the first `fuel`
occurrences of a comparison character; the remainder after the last
permitted split stays one chunk.  Like Python, empty chunks are kept. -/
def splitCompAux : Nat → List Char → List (List Char)
  | _, [] => [[]]
  | fuel, c :: cs =>
    if isCompChar c then
      match fuel with
      | 0 => [c :: cs]
      | f + 1 => [] :: splitCompAux f cs
    else
      match splitCompAux fuel cs with
      | [] => [[c]]
      | g :: gs => (c :: g) :: gs

/-- `PPKPacker._set_package_name`.  When the spec string contains a
comparison character, the code executes
`self._name, _, self._namev = re.split('[<>=]', pkg, maxsplit=2)`,
which raises `ValueError` unless the split yields exactly three parts
(modelled as `Except.error`).  In single-package mode the name is then
normalised via the external `utilities.normalise_name`, modelled by the
parameter `norm`. -/
def setPackageName (norm : String → String) (from_req : Bool) (pkg : String) :
    Except Unit (String × Option String) :=
  if pkg.data.any isCompChar then
    match splitCompAux 2 pkg.data with
    | [n, _, v] =>
      let name := String.mk n
      .ok ((if from_req then name else norm name), some (String.mk v))
    | _ => .error ()
  else
    .ok ((if from_req then pkg else norm pkg), none)

/-- Python `str.split(sep)` for a single-character separator: keeps empty
chunks and always yields a non-empty list of chunks. -/
def splitOnChar (sep : Char) : List Char → List (List Char)
  | [] => [[]]
  | c :: cs =>
    match splitOnChar sep cs with
    | [] => [[c]]
    | g :: gs => if c == sep then [] :: g :: gs else (c :: g) :: gs

/-- Python `sep.join(chunks)` for a single-character separator. -/
def joinWith (sep : Char) : List (List Char) → List Char
  | [] => []
  | [g] => g
  | g :: gs => g ++ sep :: joinWith sep gs

/-- Split a name at its **last** dot: `some (stem, ext)` with the dot
leading `ext`, or `none` when the name has no dot.  A dot found deeper in
the list wins over an earlier one. -/
def splitextAux : List Char → Option (List Char × List Char)
  | [] => none
  | c :: cs =>
    match splitextAux cs with
    | some (stem, ext) => some (c :: stem, ext)
    | none => if c = '.' then some ([], c :: cs) else none

/-- Extension part of `os.path.splitext`: the suffix starting at the last
dot, or empty when the name has no dot.  (Python's special case for
hidden dot-files is irrelevant here: artifact filenames never begin with
a dot.) -/
def splitextExt (s : List Char) : List Char :=
  match splitextAux s with
  | some (_, ext) => ext
  | none => []

/-- Stem part of `os.path.splitext`: everything before the last dot, or
the whole name when it has no dot. -/
def splitextStem (s : List Char) : List Char :=
  match splitextAux s with
  | some (stem, _) => stem
  | none => s

/-- Python `s.rfind(sub)` restricted to a found result: the **largest**
index at which `sub` occurs in `s`, or `none` when it does not occur. -/
def rfindSub (sub : List Char) : List Char → Option Nat
  | [] => if List.isPrefixOf sub [] then some 0 else none
  | c :: cs =>
    match rfindSub sub cs with
    | some i => some (i + 1)
    | none => if List.isPrefixOf sub (c :: cs) then some 0 else none

/-- Group 1 of `re.match(r'(.*?)(?:\.tar)?\.gz', s)`: the **shortest**
prefix of `s` that is immediately followed by `.tar.gz` or `.gz`;
`none` when the pattern does not match anywhere (Python would then raise
`AttributeError` on `m.group`). -/
def gzGroup1 : List Char → Option (List Char)
  | [] => none
  | c :: cs =>
    if List.isPrefixOf ".tar.gz".data (c :: cs) || List.isPrefixOf ".gz".data (c :: cs) then
      some []
    else
      (gzGroup1 cs).map (c :: ·)

/-- Python `lst[-1]` for the (always non-empty) result of a split. -/
def lastTok (gs : List (List Char)) : List Char :=
  gs.getLastD []

/-- `PPKPacker._get_package_version_number`: in single-package mode,
parse the basename of the downloaded artifact.  For `.gz` files the lazy
regex strips the first `(.tar).gz` occurrence and the version is the
last hyphen token of group 1; for wheels the stem is split on hyphens
into `(_, version, py_version, abi, platform, *_)`, raising `ValueError`
(modelled as `Except.error`) when fewer than five fields exist. -/
def getPackageVersionNumber (from_req : Bool) (base : String) (st : PackerState) :
    Except Unit PackerState :=
  if from_req then .ok st
  else
    let bd := base.data
    if splitextExt bd = ".gz".data then
      match gzGroup1 bd with
      | none => .error ()
      | some g1 => .ok { st with pkg_version := String.mk (lastTok (splitOnChar '-' g1)) }
    else
      match splitOnChar '-' (splitextStem bd) with
      | _ :: v :: py :: abi :: plat :: _ =>
        .ok { st with pkg_version := String.mk v, py_version := String.mk py,
                      abi := String.mk abi, platform := String.mk plat }
      | _ => .error ()

/-- The per-file name/version parse performed inside
`PPKPacker._verify_wheels`: `.tar.gz` files strip the extension via
`fname[:fname.rfind('.tar.gz')]` (slice `[:-1]` when absent) and split
from the right; `.zip` stems must split into exactly two fields; wheel
filenames take the first two hyphen fields. -/
def parseForTests (fname : String) : Except Unit (String × String) :=
  let fd := fname.data
  let ext := splitextExt fd
  if ext = ".gz".data then
    let stem :=
      match rfindSub ".tar.gz".data fd with
      | some i => fd.take i
      | none => fd.dropLast
    let parts := splitOnChar '-' stem
    .ok (String.mk (joinWith '-' parts.dropLast), String.mk (lastTok parts))
  else if ext = ".zip".data then
    match splitOnChar '-' (splitextStem fd) with
    | [p, v] => .ok (String.mk p, String.mk v)
    | _ => .error ()
  else
    match splitOnChar '-' fd with
    | p :: v :: _ => .ok (String.mk p, String.mk v)
    | _ => .error ()

/-- The glob pattern `f'{excl}-*.whl'` used by
`PPKPacker._exclude_packages`: the filename is the exclude name, a
hyphen, any (possibly empty) middle, then `.whl`. -/
def matchesExcl (excl fname : String) : Bool :=
  List.isPrefixOf (excl.data ++ ['-']) fname.data
    && List.isSuffixOf ".whl".data fname.data
    && decide (excl.data.length + 5 ≤ fname.data.length)

/-- `PPKPacker._exclude_packages`: for each exclude name, glob the
working directory for `{excl}-*.whl` and `os.unlink(file[0])` — i.e.
delete only the **first** match, if any (`List.eraseP`). -/
def excludePackages (exclude : Option (List String)) (files : List String) : List String :=
  match exclude with
  | none => files
  | some excls => excls.foldl (fun fs excl => fs.eraseP (matchesExcl excl)) files

/-- The testing loop of `PPKPacker._verify_wheels`: every surviving file
is run through the whole configured test battery `runTest`, producing the
per-file list of result tuples that is handed to `_log`. -/
def verifyWheels (runTest : String → List VTestResult) (files : List String) :
    List (String × List VTestResult) :=
  files.map (fun f => (f, runTest f))

/-- The flag accumulation of `PPKPacker._log`: for each logged file, the
first element of each test tuple is appended to `self._passflags`. -/
def passflagsOf (results : List (String × List VTestResult)) : List Bool :=
  (results.map (fun kv => kv.2.map VTestResult.flag)).flatten

/-- Tail of `PPKPacker._verify_wheels`:
`self._pass = all(self._passflags)`. -/
def overallPass (results : List (String × List VTestResult)) : Bool :=
  (passflagsOf results).all id

/-- The externally observable outcome of one `PPKPacker.main` run. -/
structure RunOutcome where
  exitCode : Nat
  archiveCreated : Bool
  logRows : List String
  archivedFiles : List String
deriving DecidableEq

/-- `PPKPacker.main` from the exclusion step onward, with the branches
that matter for the exit-code contract.  When the pip download yields no
target package (`downloadOk = false`), `self._pass` keeps its `__init__`
value `False` and `main` returns 1 without testing or archiving;
otherwise the surviving files are tested, logged (`logRows`), and
archived exactly when the overall pass flag is true
(`return 0 if self._pass else 1`). -/
def mainRun (downloadOk : Bool) (runTest : String → List VTestResult)
    (exclude : Option (List String)) (files : List String) : RunOutcome :=
  if downloadOk then
    let remaining := excludePackages exclude files
    let results := verifyWheels runTest remaining
    let pass := overallPass results
    { exitCode := if pass then 0 else 1,
      archiveCreated := pass,
      logRows := results.map Prod.fst,
      archivedFiles := if pass then remaining else [] }
  else
    { exitCode := 1, archiveCreated := false, logRows := [], archivedFiles := [] }

/-- `PPKPacker._generate_archive_filename`: append the `.7z` extension
to the archive-name stem and derive the key as the hex SHA-256 digest of
the resulting filename string (`h` models
`hashlib.sha256(fname.encode()).hexdigest()`). -/
def generateArchiveFilename (h : String → String) (ofname : String) : String × String :=
  let fname := ofname ++ ".7z"
  (fname, h fname)

/-- The 7z invocation assembled by `PPKPacker._create_archive`. -/
structure ArchiveCmd where
  flags : List String
  password : String
  outPath : String
  files : List String

/-- `PPKPacker._create_archive`: only when the overall pass flag is set,
build `['7z', 'a', '-mx3', '-mhe=on', '-mmt=on', f'-p{hash_}', opath]`
with the derived key as password. -/
def createArchive (h : String → String) (pass : Bool) (desktop ofname : String)
    (files : List String) : Option ArchiveCmd :=
  if pass then
    let fk := generateArchiveFilename h ofname
    some { flags := ["a", "-mx3", "-mhe=on", "-mmt=on"],
           password := fk.2,
           outPath := desktop ++ "/" ++ fk.1,
           files := files }
  else
    none

/-- Platform used by the requirements branch of
`PPKPacker._build_archive_name`: the `--platform` override when given,
else the current `self._platform`. -/
def platArg (args : Args) (st : PackerState) : String :=
  match args.platform with
  | some p => p
  | none => st.platform

/-- `PPKPacker._build_archive_name`.  Requirements mode:
`req-0.0.0-{timestamp}-{username}-{platform}`; package mode:
`{name}-{pkg_version}-{py_version}-{abi}-{platform}`; either way
`-{python_version[0]}` is appended exactly when the caller passed
`--python_version`.  Returns the name with the updated state (the
requirements branch writes the platform override back to
`self._platform`). -/
def buildArchiveName (args : Args) (st : PackerState) (timestamp username : String) :
    String × PackerState :=
  if args.from_req then
    let plat := platArg args st
    let base := "req-" ++ "0.0.0-" ++ timestamp ++ "-" ++ username ++ "-" ++ plat
    let ofn :=
      match args.python_version with
      | some pyv => base ++ "-" ++ pyv
      | none => base
    (ofn, { st with platform := plat })
  else
    let base := st.name ++ "-" ++ st.pkg_version ++ "-" ++ st.py_version ++ "-"
      ++ st.abi ++ "-" ++ st.platform
    let ofn :=
      match args.python_version with
      | some pyv => base ++ "-" ++ pyv
      | none => base
    (ofn, st)

/-- One effect on the log/key file pair. -/
inductive FileEvent where
  | appendLog (content : String)
  | writeKey (content : String)
deriving DecidableEq

/-- The trailing summary line written by `PPKPacker._log_summary`. -/
def summaryLine (pass : Bool) : String :=
  "\nResult: " ++ (if pass then "PASS" else "FAIL") ++ "\n"

/-- The effect trace of `PPKPacker._log_summary`, given the log content
`log0` already written by `_log`: first append the summary line to the
log file, then write the SHA-256 digest (`h`, modelling
`crypto.checksum_sha256` on the log path) of the finalized log file to
the key file. -/
def logSummary (h : String → String) (pass : Bool) (log0 : String) : List FileEvent :=
  [FileEvent.appendLog (summaryLine pass),
   FileEvent.writeKey (h (log0 ++ summaryLine pass))]

/-- File-system semantics of the events: the state is the log content
and the (initially absent) key content. -/
def applyEvent : String × Option String → FileEvent → String × Option String
  | (log, key), FileEvent.appendLog s => (log ++ s, key)
  | (log, _), FileEvent.writeKey s => (log, some s)

/-- Run a trace of file events from a starting state. -/
def runEvents (st : String × Option String) (evs : List FileEvent) : String × Option String :=
  evs.foldl applyEvent st

/-- Release records of one package on the index:
`data['releases']` maps a version string to its file records, each a
`(filename, md5 digest)` pair. -/
abbrev Releases := List (String × List (String × String))

/-- `Utilities.query_pypi`: a non-200 answer (package unknown to the
index) raises `RuntimeWarning`, modelled as `Except.error`. -/
def query_pypi (index : List (String × Releases)) (pkg : String) : Except Unit Releases :=
  match List.lookup pkg index with
  | some data => .ok data
  | none => .error ()

/-- `Tests.md5`: fetch the package record, subscript the releases dict
with the parsed version (`data['releases'][version]` — a missing version
raises `KeyError`, modelled as `Except.error`), take the digest of the
first record whose filename matches, and compare it with the locally
computed digest `md5c` (`crypto.checksum_md5` of the artifact).  When no
record matches the filename, `md5p` stays `None` and the comparison
yields the failing tuple `(False,)`. -/
def md5 (index : List (String × Releases)) (name version fname md5c : String) :
    Except Unit Bool :=
  match query_pypi index name with
  | .error e => .error e
  | .ok data =>
    match List.lookup version data with
    | none => .error ()
    | some records =>
      match (List.find? (fun r => r.1 == fname) records).map Prod.snd with
      | some md5p => .ok (md5c == md5p)
      | none => .ok false

/-- One data row of the scraped Snyk package-versions table: the href of
the version link and, when the row has table cells, the numeric
vulnerability counts parsed from the third cell (page order: critical,
high, medium, low). -/
structure SnykRow where
  href : String
  counts : Option (List Nat)
deriving DecidableEq

/-- `Tests.snyk` over the parsed rows (header row already removed): scan
for the first row whose link href ends with the queried version and bind
`vuln_n` to its counts; the final
`return (not any(vuln_n[:2]), *vuln_n)` raises `UnboundLocalError`
(modelled as `Except.error`) when no row matched (or the matched row had
no cells), and otherwise passes iff the leading two counts — critical
and high — are both zero. -/
def snyk (rows : List SnykRow) (version : String) : Except Unit (Bool × List Nat) :=
  match List.find? (fun r => List.isSuffixOf version.data r.href.data) rows with
  | some row =>
    match row.counts with
    | some vuln_n => .ok ((vuln_n.take 2).all (fun n => n == 0), vuln_n)
    | none => .error ()
  | none => .error ()

/-! ### Helper lemmas -/

lemma overallPass_iff (runTest : String → List VTestResult) (files : List String) :
    overallPass (verifyWheels runTest files) = true ↔
      ∀ f ∈ files, ∀ t ∈ runTest f, t.flag = true := by
  simp only [overallPass, passflagsOf, verifyWheels, List.map_map, Function.comp,
    List.all_eq_true, List.mem_flatten, List.mem_map, id]
  constructor
  · intro hall f hf t ht
    exact hall _ ⟨(runTest f).map VTestResult.flag, ⟨f, hf, rfl⟩, List.mem_map_of_mem _ ht⟩
  · rintro hres x ⟨l, ⟨f, hf, rfl⟩, hx⟩
    obtain ⟨t, ht, rfl⟩ := List.mem_map.mp hx
    exact hres f hf t ht

lemma eraseP_no_match {α : Type} (p : α → Bool) (l : List α) (h : l.countP p ≤ 1) :
    ∀ x ∈ l.eraseP p, p x = false := by
  induction l with
  | nil => simp
  | cons a as ih =>
    by_cases hpa : p a = true
    · intro x hx
      rw [List.eraseP_cons, hpa] at hx
      have hz : as.countP p = 0 := by
        have := List.countP_cons_of_pos p as hpa
        omega
      simpa using List.countP_eq_zero.mp hz x hx
    · intro x hx
      rw [List.eraseP_cons] at hx
      have hpa' : p a = false := by simpa using hpa
      rw [hpa'] at hx
      rcases List.mem_cons.mp hx with rfl | hx'
      · exact hpa'
      · have hle : as.countP p ≤ 1 := by
          rw [List.countP_cons_of_neg p as hpa] at h
          exact h
        exact ih hle x hx'

lemma excludePackages_cons (e : String) (es : List String) (files : List String) :
    excludePackages (some (e :: es)) files
      = excludePackages (some es) (files.eraseP (matchesExcl e)) := rfl

lemma excludePackages_sublist (excls : List String) (files : List String) :
    (excludePackages (some excls) files).Sublist files := by
  induction excls generalizing files with
  | nil => simp [excludePackages]
  | cons e es ih =>
    rw [excludePackages_cons]
    exact (ih (files.eraseP (matchesExcl e))).trans (List.eraseP_sublist files)

lemma excludePackages_no_match (excls : List String) (files : List String)
    (h : ∀ e ∈ excls, files.countP (matchesExcl e) ≤ 1) :
    ∀ e ∈ excls, ∀ f ∈ excludePackages (some excls) files, matchesExcl e f = false := by
  induction excls generalizing files with
  | nil => simp
  | cons e0 es ih =>
    intro e he f hf
    rw [excludePackages_cons] at hf
    rcases List.mem_cons.mp he with rfl | hees
    · have hf' : f ∈ files.eraseP (matchesExcl e) :=
        (excludePackages_sublist es _).subset hf
      exact eraseP_no_match _ _ (h e (List.mem_cons_self _ _)) f hf'
    · refine ih (files.eraseP (matchesExcl e0)) ?_ e hees f hf
      intro e' he'
      exact le_trans (List.Sublist.countP_le _ (List.eraseP_sublist files))
        (h e' (List.mem_cons_of_mem _ he'))

lemma isPrefixOf_length_le {p l : List Char} (h : List.isPrefixOf p l = true) :
    p.length ≤ l.length := by
  induction p generalizing l with
  | nil => simp
  | cons a as ih =>
    cases l with
    | nil => simp [List.isPrefixOf] at h
    | cons b bs =>
      simp only [List.isPrefixOf, Bool.and_eq_true] at h
      simpa using ih h.2

lemma isPrefixOf_self (l : List Char) : List.isPrefixOf l l = true := by
  induction l with
  | nil => rfl
  | cons a as ih => simp [List.isPrefixOf, ih]

lemma rfindSub_none_of_short {sub s : List Char} (h : s.length < sub.length) :
    rfindSub sub s = none := by
  induction s with
  | nil =>
    cases sub with
    | nil => simp at h
    | cons c cs => simp [rfindSub, List.isPrefixOf]
  | cons c cs ih =>
    have hcs : cs.length < sub.length := by
      simp only [List.length_cons] at h
      omega
    rw [rfindSub, ih hcs]
    cases hp : List.isPrefixOf sub (c :: cs) with
    | false => simp
    | true =>
      have := isPrefixOf_length_le hp
      simp only [List.length_cons] at h this
      omega

lemma rfindSub_append_self (xs sub : List Char) (hne : sub ≠ []) :
    rfindSub sub (xs ++ sub) = some xs.length := by
  induction xs with
  | nil =>
    rw [List.nil_append]
    cases sub with
    | nil => exact absurd rfl hne
    | cons a as =>
      rw [rfindSub, rfindSub_none_of_short (by simp), isPrefixOf_self]
      rfl
  | cons x xs ih =>
    rw [List.cons_append, rfindSub, ih]
    rfl

lemma splitextAux_append_targz (s : List Char) :
    splitextAux (s ++ ".tar.gz".data) = some (s ++ ".tar".data, ".gz".data) := by
  induction s with
  | nil => decide
  | cons c cs ih =>
    rw [List.cons_append, splitextAux, ih]
    rfl

lemma splitextExt_targz (s : List Char) :
    splitextExt (s ++ ".tar.gz".data) = ".gz".data := by
  rw [splitextExt, splitextAux_append_targz]

lemma gzGroup1_append_targz (s : List Char) :
    ∃ g, gzGroup1 (s ++ ".tar.gz".data) = some g := by
  induction s with
  | nil => exact ⟨[], by decide⟩
  | cons c cs ih =>
    obtain ⟨g, hg⟩ := ih
    rw [List.cons_append, gzGroup1]
    by_cases hp : (List.isPrefixOf ".tar.gz".data (c :: (cs ++ ".tar.gz".data))
        || List.isPrefixOf ".gz".data (c :: (cs ++ ".tar.gz".data))) = true
    · exact ⟨[], by rw [if_pos hp]⟩
    · refine ⟨c :: g, ?_⟩
      rw [if_neg hp, hg]
      rfl

lemma splitCompAux_zero (s : List Char) : splitCompAux 0 s = [s] := by
  induction s with
  | nil => rfl
  | cons c cs ih =>
    rw [splitCompAux]
    cases hc : isCompChar c with
    | true => simp
    | false => simp [ih]

lemma splitCompAux_exact (nameL verL : List Char) (c₁ c₂ : Char)
    (h1 : isCompChar c₁ = true) (h2 : isCompChar c₂ = true)
    (hn : ∀ ch ∈ nameL, isCompChar ch = false) :
    splitCompAux 2 (nameL ++ c₁ :: c₂ :: verL) = [nameL, [], verL] := by
  induction nameL with
  | nil =>
    simp [splitCompAux, h1, h2, splitCompAux_zero]
  | cons a as ih =>
    rw [List.cons_append, splitCompAux, hn a (List.mem_cons_self _ _)]
    simp only [Bool.false_eq_true, if_false]
    rw [ih (fun ch hch => hn ch (List.mem_cons_of_mem _ hch))]

/-! ### Claim theorems -/

/-- C1: for every run of `PPKPacker.main` in which the download
succeeded, the returned exit code is 0 iff every remaining artifact's
every configured test reported a pass flag of `true`, and the archive is
created exactly when the exit code is 0 (so a single false flag yields
exit code 1 and skips archive creation); a run whose download failed
exits 1 with no archive. -/
theorem c1_main_exit_iff (runTest : String → List VTestResult)
    (exclude : Option (List String)) (files : List String) :
    ((mainRun true runTest exclude files).exitCode = 0 ↔
      ∀ f ∈ excludePackages exclude files, ∀ t ∈ runTest f, t.flag = true)
    ∧ ((mainRun true runTest exclude files).archiveCreated = true ↔
        (mainRun true runTest exclude files).exitCode = 0)
    ∧ (mainRun false runTest exclude files).exitCode = 1
    ∧ (mainRun false runTest exclude files).archiveCreated = false := by
  have h := overallPass_iff runTest (excludePackages exclude files)
  cases hp : overallPass (verifyWheels runTest (excludePackages exclude files)) with
  | false =>
    rw [hp] at h
    refine ⟨?_, ?_, rfl, rfl⟩
    · simp only [mainRun, if_true, hp, if_false]
      constructor
      · intro h0
        exact absurd h0 (by simp)
      · intro hall
        exact absurd (h.mpr hall) (by simp)
    · simp [mainRun, hp]
  | true =>
    rw [hp] at h
    refine ⟨?_, ?_, rfl, rfl⟩
    · simp only [mainRun, if_true, hp]
      simpa using h.mp rfl
    · simp [mainRun, hp]

/-- C2 counterexample: when the package index has no entry at all for
the parsed version (here the index only knows version `2.0` of `pkg`
and the artifact parsed as version `1.0`), `Tests.md5` does **not**
return a failing tuple: the subscript `data['releases'][version]`
raises `KeyError`, modelled as `Except.error`. -/
theorem c2_missing_version_raises :
    md5 [("pkg", [("2.0", [("pkg-2.0.whl", "aa")])])] "pkg" "1.0" "pkg-1.0.whl" "bb"
      = .error () := rfl

/-- C2 amended: when the index **does** list the parsed version but none
of its file records match the artifact's filename, `Tests.md5` returns
the failing tuple `(False,)` rather than raising; a version (or package)
absent from the index raises instead. -/
theorem c2_md5_missing_filename_fails (index : List (String × Releases))
    (name version fname md5c : String) (data : Releases)
    (records : List (String × String))
    (h1 : List.lookup name index = some data)
    (h2 : List.lookup version data = some records)
    (h3 : ∀ r ∈ records, (r.1 == fname) = false) :
    md5 index name version fname md5c = .ok false := by
  have hf : List.find? (fun r => r.1 == fname) records = none :=
    List.find?_eq_none.mpr (fun r hr => by simp [h3 r hr])
  simp [md5, query_pypi, h1, h2, hf]

/-- C2 witness for the amended claim at a concrete index. -/
theorem c2_md5_missing_filename_fails_witness :
    md5 [("pkg", [("1.0", [("g.whl", "aa")])])] "pkg" "1.0" "f.whl" "bb" = .ok false :=
  c2_md5_missing_filename_fails [("pkg", [("1.0", [("g.whl", "aa")])])]
    "pkg" "1.0" "f.whl" "bb" [("1.0", [("g.whl", "aa")])] [("g.whl", "aa")]
    (by decide) (by decide) (by decide)

/-- C3: when the scraped versions table has a row for the queried
version carrying the four severity counts `[c, h, m, l]` (critical,
high, medium, low — the page's fixed descending order), `Tests.snyk`
returns that count list prefixed by a flag that is true iff the critical
and the high count are both zero. -/
theorem c3_snyk_pass_iff (rows : List SnykRow) (version : String) (row : SnykRow)
    (c h m l : Nat)
    (hfind : List.find? (fun r => List.isSuffixOf version.data r.href.data) rows = some row)
    (hcounts : row.counts = some [c, h, m, l]) :
    snyk rows version = .ok ((c == 0 && h == 0), [c, h, m, l])
    ∧ ((c == 0 && h == 0) = true ↔ (c = 0 ∧ h = 0)) := by
  constructor
  · simp [snyk, hfind, hcounts, List.all_cons]
  · simp

/-- C3 witness at a concrete scraped table. -/
theorem c3_snyk_pass_iff_witness :
    snyk [⟨"/pip/pkg/1.0.0", some [0, 0, 1, 2]⟩] "1.0.0"
        = .ok (((0 : Nat) == 0 && (0 : Nat) == 0), [0, 0, 1, 2])
      ∧ (((0 : Nat) == 0 && (0 : Nat) == 0) = true ↔ ((0 : Nat) = 0 ∧ (0 : Nat) = 0)) :=
  c3_snyk_pass_iff [⟨"/pip/pkg/1.0.0", some [0, 0, 1, 2]⟩] "1.0.0"
    ⟨"/pip/pkg/1.0.0", some [0, 0, 1, 2]⟩ 0 0 1 2 (by decide) rfl

/-- C4 counterexample: with two wheels in the working directory whose
filenames match the exclude name `foo` as a prefix (and a matching
source tarball), `_exclude_packages` deletes only the first glob match,
so `foo-2.whl` and `foo-1.tar.gz` are still verified, appear as rows in
the final log, and are included in the archive contents of a passing
run. -/
theorem c4_first_match_only :
    (mainRun true (fun _ => [⟨true, []⟩]) (some ["foo"])
        ["foo-1.whl", "foo-2.whl", "foo-1.tar.gz"]).logRows
      = ["foo-2.whl", "foo-1.tar.gz"]
    ∧ List.isPrefixOf "foo".data "foo-2.whl".data = true
    ∧ List.isPrefixOf "foo".data "foo-1.tar.gz".data = true
    ∧ (mainRun true (fun _ => [⟨true, []⟩]) (some ["foo"])
        ["foo-1.whl", "foo-2.whl", "foo-1.tar.gz"]).archivedFiles
      = ["foo-2.whl", "foo-1.tar.gz"] := by
  refine ⟨rfl, by decide, by decide, rfl⟩

/-- C4 amended: for every name in the exclude list, only the **first**
`.whl` artifact (in directory listing order) matching the glob pattern
`{name}-*.whl` is deleted; hence when each exclude pattern matches at
most one artifact of the working directory — the normal situation of
one wheel per distribution — no artifact matching the pattern is
tested, logged, or archived. -/
theorem c4_exclude_unique_matches (runTest : String → List VTestResult)
    (excls : List String) (files : List String)
    (h : ∀ e ∈ excls, files.countP (matchesExcl e) ≤ 1)
    (e : String) (he : e ∈ excls) :
    (∀ f ∈ (mainRun true runTest (some excls) files).logRows, matchesExcl e f = false)
    ∧ ∀ f ∈ (mainRun true runTest (some excls) files).archivedFiles,
        matchesExcl e f = false := by
  have hrows : (mainRun true runTest (some excls) files).logRows
      = excludePackages (some excls) files := by
    simp only [mainRun, if_true, verifyWheels, List.map_map]
    rw [show (Prod.fst ∘ fun f : String => (f, runTest f)) = id from rfl, List.map_id]
  have harch : ∀ f ∈ (mainRun true runTest (some excls) files).archivedFiles,
      f ∈ excludePackages (some excls) files := by
    intro f hf
    simp only [mainRun, if_true] at hf
    by_cases hp : overallPass (verifyWheels runTest (excludePackages (some excls) files))
        = true
    · rw [if_pos hp] at hf
      exact hf
    · rw [if_neg hp] at hf
      simp at hf
  constructor
  · intro f hf
    rw [hrows] at hf
    exact excludePackages_no_match excls files h e he f hf
  · intro f hf
    exact excludePackages_no_match excls files h e he f (harch f hf)

/-- C4 witness for the amended claim: with one wheel per package, the
surviving files match no exclude pattern. -/
theorem c4_exclude_unique_matches_witness :
    matchesExcl "foo" "bar-1.whl" = false :=
  ((c4_exclude_unique_matches (fun _ => [⟨true, []⟩]) ["foo"]
      ["foo-1.whl", "bar-1.whl"] (by decide) "foo" (by decide)).1)
    "bar-1.whl" (by decide)

/-- C5: `_generate_archive_filename` maps the archive-name stem to the
pair of `{stem}.7z` and the hex SHA-256 digest (`h`) of that filename
string; `_create_archive` of a passing run uses exactly that digest as
the 7z password (and of a failing run produces no archive).  The pair is
a function of the stem alone, hence deterministic in it. -/
theorem c5_archive_filename_key (h : String → String) (stem desktop : String)
    (files : List String) :
    generateArchiveFilename h stem = (stem ++ ".7z", h (stem ++ ".7z"))
    ∧ (createArchive h true desktop stem files).map ArchiveCmd.password
        = some (h (stem ++ ".7z"))
    ∧ createArchive h false desktop stem files = none :=
  ⟨rfl, rfl, rfl⟩

lemma getPVN_targz (S : String) (st : PackerState) :
    ∃ g, getPackageVersionNumber false (S ++ ".tar.gz") st
        = .ok { st with pkg_version := String.mk (lastTok (splitOnChar '-' g)) }
      ∧ gzGroup1 (S.data ++ ".tar.gz".data) = some g := by
  obtain ⟨g, hg⟩ := gzGroup1_append_targz S.data
  refine ⟨g, ?_, hg⟩
  simp only [getPackageVersionNumber, Bool.false_eq_true, if_false]
  rw [show (S ++ ".tar.gz").data = S.data ++ ".tar.gz".data from rfl, splitextExt_targz,
    if_pos rfl, hg]

/-- C6: for a requirements-mode run, the archive-name stem is
`req-0.0.0-{timestamp}-{username}-{platform}` — the version field is the
fixed sentinel `0.0.0` — and a trailing requested-interpreter-version
segment is appended exactly when `--python_version` was supplied. -/
theorem c6_requirements_archive_name (args : Args) (st : PackerState)
    (ts user : String) (hreq : args.from_req = true) :
    (args.python_version = none →
      (buildArchiveName args st ts user).1
        = "req-" ++ "0.0.0-" ++ ts ++ "-" ++ user ++ "-" ++ platArg args st)
    ∧ ∀ pyv, args.python_version = some pyv →
      (buildArchiveName args st ts user).1
        = "req-" ++ "0.0.0-" ++ ts ++ "-" ++ user ++ "-" ++ platArg args st ++ "-" ++ pyv := by
  constructor
  · intro hpy
    simp [buildArchiveName, hreq, hpy]
  · intro pyv hpy
    simp [buildArchiveName, hreq, hpy]

/-- C6 witness at a concrete requirements-mode argument record. -/
theorem c6_requirements_archive_name_witness :
    (buildArchiveName ⟨["requirements.txt"], none, none, true, false, none⟩
        (initState "requirements.txt") "20250101000000" "user").1
      = "req-" ++ "0.0.0-" ++ "20250101000000" ++ "-" ++ "user" ++ "-"
        ++ platArg ⟨["requirements.txt"], none, none, true, false, none⟩
            (initState "requirements.txt") :=
  (c6_requirements_archive_name ⟨["requirements.txt"], none, none, true, false, none⟩
    (initState "requirements.txt") "20250101000000" "user" rfl).1 rfl

/-- C7 counterexample: for the source-distribution filename
`a-b.gz.tar.gz`, stripping the extension leaves the stem `a-b.gz`, whose
last hyphen token is `b.gz`; but `_get_package_version_number`'s lazy
regex `(.*?)(?:\.tar)?\.gz` stops at the **first** `.gz` occurrence and
parses the version as `b` instead. -/
theorem c7_version_vs_extension :
    (getPackageVersionNumber false "a-b.gz.tar.gz" (initState "a")).map
        (fun st => st.pkg_version) = .ok "b"
    ∧ String.mk ((splitOnChar '-' "a-b.gz".data).getLastD []) = "b.gz"
    ∧ ("b" : String) ≠ "b.gz" :=
  ⟨rfl, rfl, by decide⟩

/-- C7 amended: the verification-stage parser (`_verify_wheels`) behaves
exactly as claimed for **every** filename `S ++ ".tar.gz"`: it strips the
trailing `.tar.gz` and splits the stem from the right, so the version is
the last hyphen token of `S` and the name is the hyphen-join of the
remaining tokens, and no interpreter/ABI/platform segment is produced.
The archive-name version derivation (`_get_package_version_number`) also
succeeds on every such filename and leaves the interpreter, ABI and
platform fields untouched, but it strips at the first `.gz`-like
occurrence, so its version agrees with the claim only when the stem
contains no earlier `.gz` substring (see the counterexample). -/
theorem c7_tarball_parse (S : String) (st : PackerState) :
    parseForTests (S ++ ".tar.gz")
        = .ok (String.mk (joinWith '-' (splitOnChar '-' S.data).dropLast),
               String.mk ((splitOnChar '-' S.data).getLastD []))
    ∧ ∃ st', getPackageVersionNumber false (S ++ ".tar.gz") st = .ok st'
        ∧ st'.name = st.name ∧ st'.py_version = st.py_version
        ∧ st'.abi = st.abi ∧ st'.platform = st.platform := by
  constructor
  · simp only [parseForTests]
    rw [show (S ++ ".tar.gz").data = S.data ++ ".tar.gz".data from rfl, splitextExt_targz,
      if_pos rfl, rfindSub_append_self S.data ".tar.gz".data (by decide)]
    show Except.ok
        (String.mk (joinWith '-'
          (splitOnChar '-' (List.take S.data.length (S.data ++ ".tar.gz".data))).dropLast),
         String.mk (lastTok
          (splitOnChar '-' (List.take S.data.length (S.data ++ ".tar.gz".data))))) = _
    rw [List.take_left]
    rfl
  · obtain ⟨g, hok, -⟩ := getPVN_targz S st
    exact ⟨_, hok, rfl, rfl, rfl, rfl⟩

/-- C8 counterexample: the pip-legal spec `pkg>1.0` contains a single
comparison character, so `re.split('[<>=]', pkg, maxsplit=2)` yields only
two parts and the three-way unpacking in `_set_package_name` raises
`ValueError` instead of splitting out the version. -/
theorem c8_single_char_op_raises :
    setPackageName (fun s => s) false "pkg>1.0" = .error () := rfl

/-- C8 amended: when the version constraint is introduced by **two**
consecutive comparison characters (`==`, `>=`, `<=`, ...) and the name
itself contains none, `_set_package_name` splits out the name (normalised
in single-package mode via `norm`) and tracks everything after the
operator as the requested version; a spec with a single comparison
character raises `ValueError` instead (see the counterexample). -/
theorem c8_two_char_op_split (norm : String → String) (from_req : Bool)
    (nameL verL : List Char) (c₁ c₂ : Char)
    (h1 : isCompChar c₁ = true) (h2 : isCompChar c₂ = true)
    (hn : ∀ ch ∈ nameL, isCompChar ch = false) :
    setPackageName norm from_req (String.mk (nameL ++ c₁ :: c₂ :: verL))
      = .ok ((if from_req then String.mk nameL else norm (String.mk nameL)),
             some (String.mk verL)) := by
  have hany : (nameL ++ c₁ :: c₂ :: verL).any isCompChar = true := by
    rw [List.any_append]
    simp [List.any_cons, h1]
  simp only [setPackageName]
  rw [if_pos hany, splitCompAux_exact nameL verL c₁ c₂ h1 h2 hn]

/-- C8 witness for the amended claim: `pandas>=1.2.3` splits into the
name and the requested version. -/
theorem c8_two_char_op_split_witness :
    setPackageName (fun s => s) false (String.mk ("pandas".data ++ '>' :: '=' :: "1.2.3".data))
      = .ok ("pandas", some "1.2.3") := by
  have h := c8_two_char_op_split (fun s => s) false "pandas".data "1.2.3".data '>' '='
    (by decide) (by decide) (by decide)
  simpa using h

/-- C9: along every prefix of the `_log_summary` effect trace, a written
key file only ever holds the digest (`h`, modelling SHA-256) of the
**finalized** log — the log content ending in the `Result:` summary line
— never of a partially-written log; and the completed trace leaves
exactly that log/key pair. -/
theorem c9_key_after_final_log (h : String → String) (pass : Bool) (log0 : String)
    (evs : List FileEvent) (hpre : evs <+: logSummary h pass log0) :
    (∀ k, (runEvents (log0, none) evs).2 = some k →
      (runEvents (log0, none) evs).1 = log0 ++ summaryLine pass
      ∧ k = h (log0 ++ summaryLine pass))
    ∧ runEvents (log0, none) (logSummary h pass log0)
        = (log0 ++ summaryLine pass, some (h (log0 ++ summaryLine pass))) := by
  constructor
  · intro k hk
    obtain ⟨t, ht⟩ := hpre
    cases evs with
    | nil => simp [runEvents] at hk
    | cons e1 rest =>
      cases rest with
      | nil =>
        simp only [logSummary, List.cons_append, List.nil_append] at ht
        injection ht with h1 h2
        subst h1
        simp [runEvents, applyEvent] at hk
      | cons e2 rest2 =>
        cases rest2 with
        | nil =>
          simp only [logSummary, List.cons_append, List.nil_append] at ht
          injection ht with h1 ht2
          injection ht2 with h2 ht3
          subst h1
          subst h2
          simp only [runEvents, List.foldl_cons, List.foldl_nil, applyEvent] at hk ⊢
          injection hk with hk'
          exact ⟨by simp, hk'.symm⟩
        | cons e3 rest3 =>
          exfalso
          have hlen := congrArg List.length ht
          simp [logSummary, List.length_append] at hlen
  · rfl

/-- C9 witness: the full trace over a concrete log content. -/
theorem c9_key_after_final_log_witness :
    (runEvents ("LOG", none) (logSummary (fun s => s) true "LOG")).1
        = "LOG" ++ summaryLine true
    ∧ ("LOG\nResult: PASS\n" : String) = "LOG" ++ summaryLine true := by
  have h9 := (c9_key_after_final_log (fun s => s) true "LOG"
      (logSummary (fun s => s) true "LOG") ⟨[], List.append_nil _⟩).1
    "LOG\nResult: PASS\n" rfl
  simpa using h9

/-- C10 (implicit defaults): the interpreter-version, ABI and platform
fields initialised to the sentinel `unset` in `__init__` survive to the
archive name: a package-mode run whose downloaded target is a
`.tar.gz` source distribution builds
`{name}-{version}-unset-unset-unset`, and a requirements-mode run with
no `--platform` override builds `req-0.0.0-{ts}-{user}-unset` — in both
cases with the requested-interpreter suffix exactly when
`--python_version` was supplied. -/
theorem c10_unset_defaults :
    (∀ (n S ts user : String) (args : Args), args.from_req = false →
      args.python_version = none →
      ∃ st', getPackageVersionNumber args.from_req (S ++ ".tar.gz") (initState n) = .ok st'
        ∧ st'.py_version = "unset" ∧ st'.abi = "unset" ∧ st'.platform = "unset"
        ∧ (buildArchiveName args st' ts user).1
            = n ++ "-" ++ st'.pkg_version ++ "-" ++ "unset" ++ "-" ++ "unset" ++ "-" ++ "unset")
    ∧ (∀ (n S ts user pyv : String) (args : Args), args.from_req = false →
      args.python_version = some pyv →
      ∃ st', getPackageVersionNumber args.from_req (S ++ ".tar.gz") (initState n) = .ok st'
        ∧ st'.py_version = "unset" ∧ st'.abi = "unset" ∧ st'.platform = "unset"
        ∧ (buildArchiveName args st' ts user).1
            = n ++ "-" ++ st'.pkg_version ++ "-" ++ "unset" ++ "-" ++ "unset" ++ "-" ++ "unset"
              ++ "-" ++ pyv)
    ∧ (∀ (n ts user : String) (args : Args), args.from_req = true → args.platform = none →
      args.python_version = none →
      (buildArchiveName args (initState n) ts user).1
        = "req-" ++ "0.0.0-" ++ ts ++ "-" ++ user ++ "-" ++ "unset")
    ∧ ∀ (n ts user pyv : String) (args : Args), args.from_req = true → args.platform = none →
      args.python_version = some pyv →
      (buildArchiveName args (initState n) ts user).1
        = "req-" ++ "0.0.0-" ++ ts ++ "-" ++ user ++ "-" ++ "unset" ++ "-" ++ pyv := by
  refine ⟨?_, ?_, ?_, ?_⟩
  · intro n S ts user args hreq hpy
    obtain ⟨g, hok, -⟩ := getPVN_targz S (initState n)
    rw [hreq]
    exact ⟨_, hok, rfl, rfl, rfl, by simp [buildArchiveName, hreq, hpy, initState]⟩
  · intro n S ts user pyv args hreq hpy
    obtain ⟨g, hok, -⟩ := getPVN_targz S (initState n)
    rw [hreq]
    exact ⟨_, hok, rfl, rfl, rfl, by simp [buildArchiveName, hreq, hpy, initState]⟩
  · intro n ts user args hreq hplat hpy
    simp [buildArchiveName, hreq, hplat, hpy, platArg, initState]
  · intro n ts user pyv args hreq hplat hpy
    simp [buildArchiveName, hreq, hplat, hpy, platArg, initState]

/-- C10 witness: a concrete package-mode run over a source tarball and a
concrete requirements-mode run without a platform override. -/
theorem c10_unset_defaults_witness :
    (∃ st', getPackageVersionNumber false ("pkg-1.0" ++ ".tar.gz") (initState "pkg") = .ok st'
      ∧ st'.py_version = "unset" ∧ st'.abi = "unset" ∧ st'.platform = "unset"
      ∧ (buildArchiveName ⟨["pkg"], none, none, false, false, none⟩ st' "t" "u").1
          = "pkg" ++ "-" ++ st'.pkg_version ++ "-" ++ "unset" ++ "-" ++ "unset" ++ "-"
            ++ "unset")
    ∧ (buildArchiveName ⟨["r.txt"], none, none, true, false, none⟩ (initState "r.txt")
        "t" "u").1
      = "req-" ++ "0.0.0-" ++ "t" ++ "-" ++ "u" ++ "-" ++ "unset" :=
  ⟨c10_unset_defaults.1 "pkg" "pkg-1.0" "t" "u" ⟨["pkg"], none, none, false, false, none⟩
      rfl rfl,
   c10_unset_defaults.2.2.1 "r.txt" "t" "u" ⟨["r.txt"], none, none, true, false, none⟩
      rfl rfl rfl⟩

end PPK
